import Mathlib

/-
Verification of the emergency-department intake simulation
(`src/c++/hgospital projexct.cpp`) against its natural-language
specification.

Shallow embedding notes:

* C++ `int` values (times, counts, severities) are modelled as `ℤ`;
  the quantities involved stay far below any overflow bound, and no
  claim concerns wrap-around behaviour.
* The Mersenne-twister entropy source is modelled as an abstract stream
  `rng : ℕ → ℕ` of raw draws together with a cursor `ridx`; each call of a
  distribution consumes one draw.  A `std::uniform_int_distribution(a, b)`
  sample is modelled as `a + draw % (b - a + 1)`, which realises exactly the
  support `[a, b]`.  The truncated exponential sample
  `static_cast<int>(expDist(rng) * 60)` is a nonnegative integer with full
  support over `ℕ`, so it is modelled as the raw draw itself; the
  distribution's parameterisation (which does not affect the support) is
  analysed separately for claim C3.
* `std::priority_queue` with `PatientComparator` is modelled as a list kept
  sorted with the best element (greatest under the comparator) first;
  `push` is ordered insertion that is stable across comparator ties, `top`
  is the head and `pop` drops the head.
* The inner arrival-admission `while` loop of `main` has no a-priori bound
  on its iteration count (a drawn inter-arrival gap may be 0 minutes), so
  it is modelled with an explicit fuel parameter; all run-level theorems
  quantify over every fuel schedule, hence cover every batch of arrivals
  the C++ loop can admit.
* Two ghost fields instrument the state without altering it: each resource
  records the list of busy intervals it was acquired for (newest first),
  and the state records the assigned copies of treated patients (the
  values written through the `const_cast` reference just before `pop`).
-/

namespace Hospital

/-- Patient record, `struct Patient` of the source. -/
structure Patient where
  id : ℤ
  arrivalTime : ℤ
  severity : ℤ
  treatmentTime : ℤ
  waitTime : ℤ
  startTreatmentTime : ℤ
deriving DecidableEq

/-- `PatientComparator::operator()` of the source: `a` orders strictly below
`b` when `a.severity < b.severity`, or severities tie and `a` arrived
strictly later.  `std::priority_queue` serves the greatest element first. -/
def patientLt (a b : Patient) : Bool :=
  if a.severity ≠ b.severity then decide (a.severity < b.severity)
  else decide (a.arrivalTime > b.arrivalTime)

/-- One resource unit, `struct Resource` of the source.  `log` is ghost
instrumentation: the busy intervals `(assignTime, assignTime + treatmentTime)`
this unit was acquired for, newest first.  It mirrors every write to
`endTime` and alters no behaviour. -/
structure Resource where
  available : Bool
  endTime : ℤ
  log : List (ℤ × ℤ) := []
deriving DecidableEq

/-- A `std::uniform_int_distribution<int>(a, b)` sample obtained from one raw
draw of the entropy stream. -/
def uniformInt (a b : ℤ) (draw : ℕ) : ℤ :=
  a + ((draw % (b - a + 1).toNat : ℕ) : ℤ)

/-- `generateSeverity` of the source: a uniform roll on `[1, 10]` collapsed
to a severity in `[1, 5]` biased toward high severity. -/
def generateSeverity (draw : ℕ) : ℤ :=
  let roll := uniformInt 1 10 draw
  if roll ≥ 7 then 5
  else if roll ≥ 5 then 4
  else if roll ≥ 3 then 3
  else if roll ≥ 2 then 2
  else 1

/-- `generateTreatmentTime` of the source: uniform on
`[30 + severity * 10, 120]` minutes. -/
def generateTreatmentTime (severity : ℤ) (draw : ℕ) : ℤ :=
  uniformInt (30 + severity * 10) 120 draw

/-- `generateArrivalTime` of the source: the current time plus a truncated
exponential sample converted to whole minutes.  The sample
`static_cast<int>(expDist(rng) * 60)` is some nonnegative integer, modelled
as the raw draw; `lambdaPerHour` parametrises only the sample's distribution
(analysed for claim C3 below), not its support. -/
def generateArrivalTime (currentTime : ℤ) (lambdaPerHour : ℚ) (draw : ℕ) : ℤ :=
  currentTime + draw

/-- `predictArrivalRate` of the source: the time-of-day rate shaping rule. -/
def predictArrivalRate (currentHour : ℤ) : ℚ :=
  if 18 ≤ currentHour ∧ currentHour ≤ 22 then 8
  else if 0 ≤ currentHour ∧ currentHour ≤ 6 then 2
  else 5

/-- The constructor argument the source passes to
`std::exponential_distribution<double>` inside `generateArrivalTime`,
namely `1.0 / lambdaPerHour`.  For `std::exponential_distribution` this
argument is the rate parameter `r` of the density `r * exp (-r * x)`. -/
def exponentialRateArg (lambdaPerHour : ℚ) : ℚ := 1 / lambdaPerHour

/-- Mean of an exponential distribution with rate parameter `r`, in the same
time unit as `1 / r`: the mean is `1 / r`. -/
def exponentialMean (r : ℚ) : ℚ := 1 / r

/-- Mean, in minutes, of the inter-arrival sample added by
`generateArrivalTime`: the sample is drawn in hours from the exponential
distribution the source constructs, then scaled by 60. -/
def meanInterArrivalMinutes (lambdaPerHour : ℚ) : ℚ :=
  60 * exponentialMean (exponentialRateArg lambdaPerHour)

/-- Modelled from the spec: the mean the specification claims for the
inter-arrival distribution, `60 / ratePerHour` minutes. -/
def specMeanInterArrivalMinutes (ratePerHour : ℚ) : ℚ := 60 / ratePerHour

/-- Simulation constants of `main`. -/
def SIMULATION_MINUTES : ℤ := 1440

/-- Number of clinicians configured in `main`. -/
def NUM_DOCTORS : ℕ := 5

/-- Number of beds configured in `main`. -/
def NUM_BEDS : ℕ := 10

/-- Base hourly arrival rate configured in `main`. -/
def BASE_LAMBDA : ℚ := 5

/-- `waitingRoom.push`: ordered insertion keeping the best patient first.
The new patient goes in front of the first strictly worse element, so the
insertion is stable across comparator ties. -/
def wqInsert (p : Patient) : List Patient → List Patient
  | [] => [p]
  | q :: rest => if patientLt q p then p :: q :: rest else q :: wqInsert p rest

/-- Build a waiting queue by pushing the given patients in order. -/
def wqFromList (ps : List Patient) : List Patient :=
  ps.foldl (fun q p => wqInsert p q) []

/-- The availability-refresh applied to one unit each tick:
`if (!r.available && r.endTime <= currentTime) r.available = true`. -/
def refreshUnit (currentTime : ℤ) (r : Resource) : Resource :=
  if r.available = false ∧ r.endTime ≤ currentTime then { r with available := true }
  else r

/-- The availability-refresh step over a whole pool. -/
def poolRefresh (currentTime : ℤ) (pool : List Resource) : List Resource :=
  pool.map (refreshUnit currentTime)

/-- Folding `nextEventTime = std::min(nextEventTime, r.endTime)` over a pool,
starting from the accumulated value `init`.  Note the source applies this to
every unit, busy or idle. -/
def poolMinEnd (init : ℤ) (pool : List Resource) : ℤ :=
  pool.foldl (fun m r => min m r.endTime) init

/-- The allocation eligibility predicate of the source's two `find_if`
calls: `r.available && assignTime >= r.endTime`. -/
def canUse (assignTime : ℤ) (r : Resource) : Bool :=
  r.available && decide (assignTime ≥ r.endTime)

/-- Mutate the first unit satisfying `canUse assignTime` to be busy until
`untilTime` (recording the ghost interval); `none` when no unit qualifies,
leaving the pool untouched — exactly `std::find_if` followed by the in-place
writes `available = false; endTime = assignTime + treatmentTime`. -/
def acquireFirst (assignTime untilTime : ℤ) : List Resource → Option (List Resource)
  | [] => none
  | r :: rest =>
    if canUse assignTime r then
      some ({ available := false, endTime := untilTime,
              log := (assignTime, untilTime) :: r.log } :: rest)
    else
      match acquireFirst assignTime untilTime rest with
      | none => none
      | some rest' => some (r :: rest')

/-- The whole mutable state of `main`'s simulation loop.  `treatedLog` is
ghost instrumentation: the assigned copies of treated patients, i.e. the
field values written through the `const_cast` reference to the queue top
just before it is popped. -/
structure SimState where
  rng : ℕ → ℕ
  ridx : ℕ
  doctors : List Resource
  beds : List Resource
  waitingRoom : List Patient
  allPatients : List Patient
  nextPatientId : ℤ
  currentTime : ℤ
  nextArrivalTime : ℤ
  totalWaitTime : ℤ
  totalPatients : ℤ
  patientsTreated : ℤ
  doctorUtilization : ℤ
  bedUtilization : ℤ
  treatedLog : List Patient

/-- The patient record one arrival admission constructs: consecutive id,
arrival at the scheduled time, generated severity (draw `ridx`) and
treatment time (draw `ridx + 1`), zero wait and start sentinels. -/
def admitPatient (s : SimState) : Patient :=
  { id := s.nextPatientId
    arrivalTime := s.nextArrivalTime
    severity := generateSeverity (s.rng s.ridx)
    treatmentTime := generateTreatmentTime (generateSeverity (s.rng s.ridx)) (s.rng (s.ridx + 1))
    waitTime := 0
    startTreatmentTime := 0 }

/-- The arrival-admission inner `while` loop of `main`, bounded by explicit
fuel (the C++ loop has no a-priori iteration bound).  Each admitted patient
consumes three raw draws: severity roll, treatment roll, inter-arrival gap
(draw `ridx + 2`). -/
def admitLoop : ℕ → ℚ → SimState → SimState
  | 0, _, s => s
  | fuel + 1, lambda, s =>
    if s.nextArrivalTime ≤ s.currentTime ∧ s.nextArrivalTime < SIMULATION_MINUTES then
      admitLoop fuel lambda
        { s with
          ridx := s.ridx + 3
          waitingRoom := wqInsert (admitPatient s) s.waitingRoom
          allPatients := s.allPatients ++ [admitPatient s]
          nextPatientId := s.nextPatientId + 1
          totalPatients := s.totalPatients + 1
          nextArrivalTime :=
            generateArrivalTime s.nextArrivalTime lambda (s.rng (s.ridx + 2)) }
    else s

/-- The arrival rate `main` computes for the current tick:
`BASE_LAMBDA * predictArrivalRate(currentTime / 60)`. -/
def lambdaOf (s : SimState) : ℚ :=
  BASE_LAMBDA * predictArrivalRate (s.currentTime / 60)

/-- The initialisation of `nextEventTime` before the pool scans:
`SIMULATION_MINUTES`, lowered to the queue head's arrival time when the
queue is non-empty. -/
def queueHeadBound : List Patient → ℤ
  | [] => SIMULATION_MINUTES
  | top :: _ => min SIMULATION_MINUTES top.arrivalTime

/-- The next event time `main` computes: the horizon / queue-head bound,
folded through `min` with every unit's `endTime` in both pools — idle units
included, exactly as in the source. -/
def nextEventTime (s : SimState) : ℤ :=
  poolMinEnd (poolMinEnd (queueHeadBound s.waitingRoom) s.doctors) s.beds

/-- The time-advancement block of `main`: refresh both pools' availability at
the current time, compute the next event time, then step the clock by
`min (currentTime + 1) nextEventTime`.  (In the source the refresh and the
`min` fold happen in one pass over each pool; the refresh writes only
`available`, which the fold never reads, so the two commute.) -/
def clockPhase (s : SimState) : SimState :=
  { s with
    doctors := poolRefresh s.currentTime s.doctors
    beds := poolRefresh s.currentTime s.beds
    currentTime := min (s.currentTime + 1) (nextEventTime s) }

/-- The successful-assignment writes of the allocation block: set the
patient's wait and start (through the `const_cast` reference — the mutated
copy is recorded in the ghost `treatedLog` and then popped), install the
mutated pools, pop the queue, and bump the accumulators. -/
def allocCommit (s : SimState) (top : Patient) (rest : List Patient)
    (doctors' beds' : List Resource) : SimState :=
  { s with
    doctors := doctors'
    beds := beds'
    waitingRoom := rest
    totalWaitTime := s.totalWaitTime +
      (max s.currentTime top.arrivalTime - top.arrivalTime)
    patientsTreated := s.patientsTreated + 1
    doctorUtilization := s.doctorUtilization + top.treatmentTime
    bedUtilization := s.bedUtilization + top.treatmentTime
    treatedLog := s.treatedLog ++
      [{ top with
          waitTime := max s.currentTime top.arrivalTime - top.arrivalTime
          startTreatmentTime := max s.currentTime top.arrivalTime }] }

/-- The allocation block of `main`: examine only the queue head, compute
`assignTime = max(currentTime, arrivalTime)`, find the first eligible
clinician, then the first eligible bed; commit the assignment (and pop) only
when both exist, otherwise leave the state untouched. -/
def allocPhase (s : SimState) : SimState :=
  match s.waitingRoom with
  | [] => s
  | top :: rest =>
    match acquireFirst (max s.currentTime top.arrivalTime)
        (max s.currentTime top.arrivalTime + top.treatmentTime) s.doctors with
    | none => s
    | some doctors' =>
      match acquireFirst (max s.currentTime top.arrivalTime)
          (max s.currentTime top.arrivalTime + top.treatmentTime) s.beds with
      | none => s
      | some beds' => allocCommit s top rest doctors' beds'

/-- The state at which the allocation decision of a tick is made: arrivals
admitted, availability refreshed, clock advanced. -/
def decisionState (fuel : ℕ) (s : SimState) : SimState :=
  clockPhase (admitLoop fuel (lambdaOf s) s)

/-- One full iteration of the outer `while` loop of `main`. -/
def step (fuel : ℕ) (s : SimState) : SimState :=
  allocPhase (decisionState fuel s)

/-- The outer loop guard:
`currentTime < SIMULATION_MINUTES || !waitingRoom.empty()`. -/
def loopGuard (s : SimState) : Bool :=
  decide (s.currentTime < SIMULATION_MINUTES) || !s.waitingRoom.isEmpty

/-- The state of `main` just before the loop: five idle doctors, ten idle
beds, empty queue, clock at zero, first arrival scheduled from time zero
with the base rate (consuming draw 0). -/
def initState (rng : ℕ → ℕ) : SimState :=
  { rng := rng
    ridx := 1
    doctors := List.replicate NUM_DOCTORS { available := true, endTime := 0 }
    beds := List.replicate NUM_BEDS { available := true, endTime := 0 }
    waitingRoom := []
    allPatients := []
    nextPatientId := 1
    currentTime := 0
    nextArrivalTime := generateArrivalTime 0 BASE_LAMBDA (rng 0)
    totalWaitTime := 0
    totalPatients := 0
    patientsTreated := 0
    doctorUtilization := 0
    bedUtilization := 0
    treatedLog := [] }

/-- `n` iterations of the outer loop (stopping early if the guard falls),
with `fuel k` bounding the arrival batch of iteration `k`. -/
def runN (rng : ℕ → ℕ) (fuel : ℕ → ℕ) : ℕ → SimState
  | 0 => initState rng
  | n + 1 =>
    if loopGuard (runN rng fuel n) then step (fuel n) (runN rng fuel n)
    else runN rng fuel n

/-- The post-loop reduction for average wait:
`(patientsTreated > 0) ? totalWaitTime / patientsTreated : 0`. -/
def finalizeAvgWait (totalWaitTime patientsTreated : ℤ) : ℚ :=
  if 0 < patientsTreated then (totalWaitTime : ℚ) / (patientsTreated : ℚ) else 0

/-- The post-loop reduction for pool utilization:
`(poolSize > 0) ? busyMinutes / (poolSize * SIMULATION_MINUTES) : 0`,
generalised over the pool size and horizon constants. -/
def finalizeUtilization (poolSize : ℕ) (horizonMinutes busyMinutes : ℤ) : ℚ :=
  if 0 < poolSize then (busyMinutes : ℚ) / ((poolSize : ℚ) * (horizonMinutes : ℚ))
  else 0

/-- The strict priority order named by the spec: strictly higher severity
wins, and on equal severity the strictly earlier arrival wins. -/
def patientBeats (a b : Patient) : Prop :=
  b.severity < a.severity ∨ (a.severity = b.severity ∧ a.arrivalTime < b.arrivalTime)

instance (a b : Patient) : Decidable (patientBeats a b) := by
  unfold patientBeats
  infer_instance

theorem patientLt_true_iff (a b : Patient) :
    patientLt a b = true ↔
      (a.severity < b.severity ∨
        (a.severity = b.severity ∧ b.arrivalTime < a.arrivalTime)) := by
  unfold patientLt
  split_ifs with h <;> simp only [decide_eq_true_eq, gt_iff_lt] <;> omega

theorem patientLt_irrefl (a : Patient) : patientLt a a = false := by
  by_contra h
  rw [Bool.not_eq_false, patientLt_true_iff] at h
  omega

theorem patientLt_asymm {a b : Patient} (h : patientLt a b = true) :
    patientLt b a = false := by
  by_contra hc
  rw [Bool.not_eq_false, patientLt_true_iff] at hc
  rw [patientLt_true_iff] at h
  omega

theorem patientLt_trans {a b c : Patient} (hab : patientLt a b = true)
    (hbc : patientLt b c = true) : patientLt a c = true := by
  rw [patientLt_true_iff] at hab hbc ⊢
  omega

theorem patientBeats_iff (a b : Patient) :
    patientBeats a b ↔ patientLt b a = true := by
  rw [patientLt_true_iff]
  unfold patientBeats
  omega

/-- The ordering invariant of the waiting-queue model: no earlier element of
the list orders strictly below a later one, i.e. the best patient is first. -/
def WQSorted (l : List Patient) : Prop :=
  l.Pairwise fun a b => patientLt a b = false

theorem mem_wqInsert (x p : Patient) (l : List Patient) :
    x ∈ wqInsert p l ↔ x = p ∨ x ∈ l := by
  induction l with
  | nil => simp [wqInsert]
  | cons q rest ih =>
    unfold wqInsert
    split_ifs with h
    · simp only [List.mem_cons]
    · simp only [List.mem_cons, ih]
      tauto

theorem wqInsert_sorted {l : List Patient} (p : Patient) (hs : WQSorted l) :
    WQSorted (wqInsert p l) := by
  induction l with
  | nil => simp [wqInsert, WQSorted]
  | cons q rest ih =>
    rcases List.pairwise_cons.mp hs with ⟨hq, hrest⟩
    unfold wqInsert
    split_ifs with h
    · refine List.pairwise_cons.mpr ⟨?_, hs⟩
      intro b hb
      rcases List.mem_cons.mp hb with hb | hb
      · subst hb
        exact patientLt_asymm h
      · by_contra hc
        rw [Bool.not_eq_false] at hc
        have := patientLt_trans h hc
        rw [hq b hb] at this
        cases this
    · refine List.pairwise_cons.mpr ⟨?_, ih hrest⟩
      intro b hb
      rcases (mem_wqInsert b p rest).mp hb with hb | hb
      · subst hb
        exact Bool.not_eq_true _ ▸ h
      · exact hq b hb

theorem wqFromList_sorted (ps : List Patient) : WQSorted (wqFromList ps) := by
  suffices h : ∀ acc, WQSorted acc → WQSorted (ps.foldl (fun q p => wqInsert p q) acc) by
    exact h [] (List.Pairwise.nil)
  induction ps with
  | nil => intro acc hacc; exact hacc
  | cons p rest ih =>
    intro acc hacc
    exact ih _ (wqInsert_sorted p hacc)

theorem sorted_dequeue_order (l : List Patient) (hs : WQSorted l) (p q : Patient)
    (hp : p ∈ l) (hq : q ∈ l) (h : patientLt q p = true) :
    l.indexOf p < l.indexOf q := by
  induction l with
  | nil => cases hp
  | cons x rest ih =>
    rcases List.pairwise_cons.mp hs with ⟨hx, hrest⟩
    by_cases hpx : p = x
    · subst hpx
      have hqp : q ≠ p := by
        intro e
        subst e
        rw [patientLt_irrefl] at h
        cases h
      rw [List.indexOf_cons_self]
      rw [List.indexOf_cons_ne _ (fun e => hqp e.symm)]
      omega
    · have hqx : q ≠ x := by
        intro e
        subst e
        have hpr : p ∈ rest := by
          rcases List.mem_cons.mp hp with e | e
          · exact absurd e hpx
          · exact e
        rw [hx p hpr] at h
        cases h
      have hpr : p ∈ rest := by
        rcases List.mem_cons.mp hp with e | e
        · exact absurd e hpx
        · exact e
      have hqr : q ∈ rest := by
        rcases List.mem_cons.mp hq with e | e
        · exact absurd e hqx
        · exact e
      rw [List.indexOf_cons_ne _ (fun e => hpx e.symm)]
      rw [List.indexOf_cons_ne _ (fun e => hqx e.symm)]
      have := ih hrest hpr hqr
      omega

/-- C7: for any two patients simultaneously present in the waiting queue,
the one with strictly higher severity — or, on equal severity, the strictly
earlier arrival — is dequeued first: it sits strictly closer to the head
(`pop` removes the head), for any queue built by pushes. -/
theorem c7_dequeue_respects_priority (ps : List Patient) (p q : Patient)
    (hp : p ∈ wqFromList ps) (hq : q ∈ wqFromList ps) (h : patientBeats p q) :
    (wqFromList ps).indexOf p < (wqFromList ps).indexOf q :=
  sorted_dequeue_order _ (wqFromList_sorted ps) p q hp hq ((patientBeats_iff p q).mp h)

def demoP1 : Patient :=
  { id := 1, arrivalTime := 0, severity := 3, treatmentTime := 40,
    waitTime := 0, startTreatmentTime := 0 }

def demoP2 : Patient :=
  { id := 2, arrivalTime := 0, severity := 5, treatmentTime := 40,
    waitTime := 0, startTreatmentTime := 0 }

/-- Witness for C7 at a concrete queue: the severity-5 patient is dequeued
before the severity-3 patient. -/
theorem c7_dequeue_respects_priority_witness :
    (wqFromList [demoP1, demoP2]).indexOf demoP2 <
      (wqFromList [demoP1, demoP2]).indexOf demoP1 :=
  c7_dequeue_respects_priority [demoP1, demoP2] demoP2 demoP1
    (by decide) (by decide) (by decide)

/-- C3 (code bug): `generateArrivalTime` passes `1.0 / lambdaPerHour` as the
rate parameter of `std::exponential_distribution`, so at the base rate of 5
arrivals per hour the inter-arrival mean is `60 * 5 = 300` minutes, not the
`60 / 5 = 12` minutes the claim (and the code's own comment
`lambda = avg arrivals per hour`) requires. -/
theorem c3_exponential_rate_misparameterised :
    meanInterArrivalMinutes BASE_LAMBDA = 300 ∧
    specMeanInterArrivalMinutes BASE_LAMBDA = 12 ∧
    meanInterArrivalMinutes BASE_LAMBDA ≠ specMeanInterArrivalMinutes BASE_LAMBDA := by
  refine ⟨?_, ?_, ?_⟩ <;>
    norm_num [meanInterArrivalMinutes, exponentialMean, exponentialRateArg,
      specMeanInterArrivalMinutes, BASE_LAMBDA]

theorem refreshUnit_idem (t : ℤ) (r : Resource) :
    refreshUnit t (refreshUnit t r) = refreshUnit t r := by
  unfold refreshUnit
  split_ifs with h1 h2 <;> simp_all

/-- C10: the availability-refresh step is idempotent — refreshing a pool
twice at the same current time yields exactly the same pool state as
refreshing it once (this applies verbatim to both the doctor pool and the
bed pool, which are refreshed by the same per-unit rule). -/
theorem c10_refresh_idempotent (currentTime : ℤ) (pool : List Resource) :
    poolRefresh currentTime (poolRefresh currentTime pool) =
      poolRefresh currentTime pool := by
  unfold poolRefresh
  rw [List.map_map]
  apply List.map_congr_left
  intro r _
  exact refreshUnit_idem currentTime r

/-- C9: the run-end reductions — average wait is `totalWaitTime /
patientsTreated` when any patient was treated and 0 otherwise, and a pool's
utilization is its accumulated busy minutes over `poolSize * horizonMinutes`,
with 0 for an empty pool (guarded division; the function is total). -/
theorem c9_metrics_formulas (totalWaitTime patientsTreated : ℤ)
    (poolSize : ℕ) (horizonMinutes busyMinutes : ℤ) :
    (0 < patientsTreated →
      finalizeAvgWait totalWaitTime patientsTreated =
        (totalWaitTime : ℚ) / (patientsTreated : ℚ)) ∧
    (patientsTreated = 0 → finalizeAvgWait totalWaitTime patientsTreated = 0) ∧
    (0 < poolSize →
      finalizeUtilization poolSize horizonMinutes busyMinutes =
        (busyMinutes : ℚ) / ((poolSize : ℚ) * (horizonMinutes : ℚ))) ∧
    (poolSize = 0 → finalizeUtilization poolSize horizonMinutes busyMinutes = 0) := by
  refine ⟨fun h => ?_, fun h => ?_, fun h => ?_, fun h => ?_⟩ <;>
    simp [finalizeAvgWait, finalizeUtilization, h]

/-- Witness for C9: nine total wait minutes over two treated patients average
to 9/2, and a zero-sized pool yields zero utilization. -/
theorem c9_metrics_formulas_witness :
    finalizeAvgWait 9 2 = (9 : ℚ) / 2 ∧ finalizeUtilization 0 1440 0 = 0 :=
  ⟨(c9_metrics_formulas 9 2 5 1440 0).1 (by norm_num),
   (c9_metrics_formulas 9 0 0 1440 0).2.2.2 rfl⟩

/-- C8: if the waiting queue's head finds an eligible clinician but no
eligible bed at `assignTime = max(currentTime, arrivalTime)`, the allocation
step changes nothing at all — pools (including the found clinician), queue,
patient registry and every accumulator are left exactly as they were. -/
theorem c8_missing_bed_leaves_state_unchanged (s : SimState) (top : Patient)
    (rest : List Patient) (doctors' : List Resource)
    (hq : s.waitingRoom = top :: rest)
    (hd : acquireFirst (max s.currentTime top.arrivalTime)
        (max s.currentTime top.arrivalTime + top.treatmentTime) s.doctors =
        some doctors')
    (hb : acquireFirst (max s.currentTime top.arrivalTime)
        (max s.currentTime top.arrivalTime + top.treatmentTime) s.beds = none) :
    allocPhase s = s := by
  unfold allocPhase
  rw [hq]
  simp only [hd, hb]

def demoPatient : Patient :=
  { id := 1, arrivalTime := 4, severity := 3, treatmentTime := 50,
    waitTime := 0, startTreatmentTime := 0 }

def demoState : SimState :=
  { rng := fun _ => 0
    ridx := 0
    doctors := [{ available := true, endTime := 0 }]
    beds := [{ available := true, endTime := 0 }]
    waitingRoom := [demoPatient]
    allPatients := [demoPatient]
    nextPatientId := 2
    currentTime := 10
    nextArrivalTime := 2000
    totalWaitTime := 0
    totalPatients := 1
    patientsTreated := 0
    doctorUtilization := 0
    bedUtilization := 0
    treatedLog := [] }

def demoStateNoBed : SimState :=
  { demoState with beds := [{ available := false, endTime := 100 }] }

/-- Witness for C8 at a concrete state: clinician eligible, bed busy until
time 100 — the allocation step is the identity. -/
theorem c8_missing_bed_leaves_state_unchanged_witness : allocPhase demoStateNoBed = demoStateNoBed :=
  c8_missing_bed_leaves_state_unchanged demoStateNoBed demoPatient []
    [{ available := false, endTime := 60, log := [(10, 60)] }] rfl (by decide) (by decide)

/-- C5 (code bug): at a state with the clock at minute 10 and the queue head
having arrived at minute 4, the allocation step does treat the patient
(`patientsTreated` becomes 1, and the copy written through the `const_cast`
reference — recorded in the ghost `treatedLog` — carries `waitTime = 6`,
`startTreatmentTime = 10`), yet the retained registry record in
`allPatients` is byte-for-byte the arrival-time record: its `waitTime` and
`startTreatmentTime` are still 0, not the assignment-time values the claim
asserts for the retained record. -/
theorem c5_registry_never_updated :
    (allocPhase demoState).patientsTreated = 1 ∧
    (allocPhase demoState).waitingRoom = [] ∧
    (allocPhase demoState).treatedLog =
      [{ demoPatient with waitTime := 6, startTreatmentTime := 10 }] ∧
    (allocPhase demoState).allPatients = [demoPatient] ∧
    demoPatient.waitTime = 0 ∧ demoPatient.startTreatmentTime = 0 := by
  refine ⟨by decide, by decide, by decide, by decide, rfl, rfl⟩

theorem generateSeverity_bounds (draw : ℕ) :
    1 ≤ generateSeverity draw ∧ generateSeverity draw ≤ 5 := by
  unfold generateSeverity
  simp only []
  split_ifs <;> norm_num

theorem generateTreatmentTime_ge (sev : ℤ) (draw : ℕ) (h1 : 1 ≤ sev) :
    40 ≤ generateTreatmentTime sev draw := by
  unfold generateTreatmentTime uniformInt
  have h2 := Int.natCast_nonneg (draw % (120 - (30 + sev * 10) + 1).toNat)
  omega

/-- Per-unit inductive invariant of every reachable pool state: the free
time is nonnegative, the unit is available exactly when it was never
acquired (`endTime = 0` — once acquired, its free time is at least the
minimal treatment time 40, and the frozen clock can never release it), and
its ghost interval log is well-formed, chronologically disjoint, and capped
by the current `endTime`. -/
def UnitInv (u : Resource) : Prop :=
  0 ≤ u.endTime ∧
  (u.available = true ↔ u.endTime = 0) ∧
  (u.endTime = 0 ∨ 40 ≤ u.endTime) ∧
  u.log.Pairwise (fun a b => b.2 ≤ a.1) ∧
  (∀ iv ∈ u.log, iv.1 ≤ iv.2) ∧
  (∀ iv ∈ u.log, iv.2 ≤ u.endTime)

/-- Per-patient inductive invariant of every queued patient: admitted at the
frozen clock value 0, with a generated treatment time of at least 40. -/
def PatientInv (p : Patient) : Prop :=
  p.arrivalTime = 0 ∧ 40 ≤ p.treatmentTime

/-- The inductive invariant of the simulation loop, for the configured run
(5 doctors, 10 beds): the clock is frozen at 0, the next arrival is not in
the past, queued patients and all units satisfy their local invariants, the
pool sizes are constant, and no more beds than doctors have ever been
acquired (each allocation acquires exactly one of each, and with the clock
frozen no doctor is ever released). -/
structure Inv (s : SimState) : Prop where
  time0 : s.currentTime = 0
  arrNonneg : 0 ≤ s.nextArrivalTime
  queueInv : ∀ p ∈ s.waitingRoom, PatientInv p
  docInv : ∀ u ∈ s.doctors, UnitInv u
  bedInv : ∀ u ∈ s.beds, UnitInv u
  docLen : s.doctors.length = NUM_DOCTORS
  bedLen : s.beds.length = NUM_BEDS
  busyCount : (s.beds.countP fun u => decide (u.endTime ≠ 0)) ≤
      (s.doctors.countP fun u => decide (u.endTime ≠ 0))

theorem poolMinEnd_cons (init : ℤ) (r : Resource) (rest : List Resource) :
    poolMinEnd init (r :: rest) = poolMinEnd (min init r.endTime) rest := rfl

theorem poolMinEnd_le_init (init : ℤ) (pool : List Resource) :
    poolMinEnd init pool ≤ init := by
  induction pool generalizing init with
  | nil => exact le_refl init
  | cons r rest ih =>
    rw [poolMinEnd_cons]
    exact le_trans (ih (min init r.endTime)) (min_le_left _ _)

theorem poolMinEnd_nonneg {init : ℤ} {pool : List Resource} (h0 : 0 ≤ init)
    (h : ∀ u ∈ pool, 0 ≤ u.endTime) : 0 ≤ poolMinEnd init pool := by
  induction pool generalizing init with
  | nil => exact h0
  | cons r rest ih =>
    rw [poolMinEnd_cons]
    exact ih (le_min h0 (h r (List.mem_cons_self r rest)))
      (fun u hu => h u (List.mem_cons_of_mem r hu))

theorem poolMinEnd_le_mem {init : ℤ} {pool : List Resource} {u : Resource}
    (hu : u ∈ pool) : poolMinEnd init pool ≤ u.endTime := by
  induction pool generalizing init with
  | nil => cases hu
  | cons r rest ih =>
    rw [poolMinEnd_cons]
    rcases List.mem_cons.mp hu with e | e
    · subst e
      exact le_trans (poolMinEnd_le_init _ _) (min_le_right _ _)
    · exact ih e

theorem refreshUnit_id_of_inv {u : Resource} (h : UnitInv u) :
    refreshUnit 0 u = u := by
  obtain ⟨h0, hiff, h40, -⟩ := h
  unfold refreshUnit
  split_ifs with hc
  · exfalso
    have hne : u.endTime ≠ 0 := fun e => by
      rw [hiff.mpr e] at hc
      exact Bool.true_eq_false.mp hc.1
    omega
  · rfl

theorem poolRefresh_id_of_inv {pool : List Resource}
    (h : ∀ u ∈ pool, UnitInv u) : poolRefresh 0 pool = pool := by
  induction pool with
  | nil => rfl
  | cons r rest ih =>
    show refreshUnit 0 r :: poolRefresh 0 rest = r :: rest
    rw [refreshUnit_id_of_inv (h r (List.mem_cons_self r rest)),
      ih (fun u hu => h u (List.mem_cons_of_mem r hu))]

theorem exists_idle_bed {s : SimState} (h : Inv s) :
    ∃ u ∈ s.beds, u.endTime = 0 := by
  by_contra hc
  push_neg at hc
  have hall : ∀ u ∈ s.beds, (fun u : Resource => decide (u.endTime ≠ 0)) u = true := by
    intro u hu
    simpa using hc u hu
  have hbeds : (s.beds.countP fun u => decide (u.endTime ≠ 0)) = s.beds.length :=
    List.countP_eq_length.mpr hall
  have hdocs : (s.doctors.countP fun u => decide (u.endTime ≠ 0)) ≤ s.doctors.length :=
    List.countP_le_length _
  have h1 := h.busyCount
  rw [hbeds, h.bedLen] at h1
  rw [h.docLen] at hdocs
  norm_num [NUM_BEDS, NUM_DOCTORS] at h1 hdocs
  omega

theorem nextEventTime_eq_zero {s : SimState} (h : Inv s) : nextEventTime s = 0 := by
  obtain ⟨b, hb, hb0⟩ := exists_idle_bed h
  have hub : nextEventTime s ≤ 0 := by
    have := @poolMinEnd_le_mem (poolMinEnd (queueHeadBound s.waitingRoom) s.doctors) s.beds b hb
    rw [hb0] at this
    exact this
  have hq : 0 ≤ queueHeadBound s.waitingRoom := by
    cases hw : s.waitingRoom with
    | nil => norm_num [queueHeadBound, SIMULATION_MINUTES]
    | cons top rest =>
      have h0 := (h.queueInv top (by rw [hw]; exact List.mem_cons_self _ _)).1
      show 0 ≤ min SIMULATION_MINUTES top.arrivalTime
      rw [h0]
      norm_num [SIMULATION_MINUTES]
  have hlb : 0 ≤ nextEventTime s :=
    poolMinEnd_nonneg (poolMinEnd_nonneg hq (fun u hu => (h.docInv u hu).1))
      (fun u hu => (h.bedInv u hu).1)
  omega

theorem clockPhase_eq_of_inv {s : SimState} (h : Inv s) :
    clockPhase s = { s with currentTime := 0 } := by
  unfold clockPhase
  rw [h.time0, nextEventTime_eq_zero h,
    poolRefresh_id_of_inv h.docInv, poolRefresh_id_of_inv h.bedInv]
  norm_num

theorem clockPhase_inv {s : SimState} (h : Inv s) : Inv (clockPhase s) := by
  rw [clockPhase_eq_of_inv h]
  exact ⟨rfl, h.arrNonneg, h.queueInv, h.docInv, h.bedInv, h.docLen, h.bedLen,
    h.busyCount⟩

theorem admitLoop_inv (fuel : ℕ) (lambda : ℚ) {s : SimState} (h : Inv s) :
    Inv (admitLoop fuel lambda s) := by
  induction fuel generalizing s with
  | zero => exact h
  | succ n ih =>
    show Inv (admitLoop (n + 1) lambda s)
    unfold admitLoop
    split_ifs with hc
    · apply ih
      refine ⟨h.time0, ?_, ?_, h.docInv, h.bedInv, h.docLen, h.bedLen, h.busyCount⟩
      · show (0 : ℤ) ≤ generateArrivalTime s.nextArrivalTime lambda (s.rng (s.ridx + 2))
        unfold generateArrivalTime
        have h1 := Int.natCast_nonneg (s.rng (s.ridx + 2))
        have h2 := h.arrNonneg
        omega
      · intro p' hp'
        rcases (mem_wqInsert p' (admitPatient s) s.waitingRoom).mp hp' with e | e
        · subst e
          refine ⟨?_, ?_⟩
          · show s.nextArrivalTime = 0
            have h1 := hc.1
            have h2 := h.time0
            have h3 := h.arrNonneg
            omega
          · exact generateTreatmentTime_ge _ _ (generateSeverity_bounds (s.rng s.ridx)).1
        · exact h.queueInv p' e
    · exact h

theorem acquireFirst_eq_some {a u : ℤ} {l l' : List Resource}
    (h : acquireFirst a u l = some l') :
    ∃ l₁ r l₂, l = l₁ ++ r :: l₂ ∧
      l' = l₁ ++ { available := false, endTime := u, log := (a, u) :: r.log } :: l₂ ∧
      canUse a r = true ∧ ∀ x ∈ l₁, canUse a x = false := by
  induction l generalizing l' with
  | nil => cases h
  | cons r rest ih =>
    unfold acquireFirst at h
    split_ifs at h with hc
    · refine ⟨[], r, rest, rfl, ?_, hc, fun x hx => absurd hx (List.not_mem_nil x)⟩
      rw [List.nil_append]
      exact (Option.some.inj h).symm
    · cases hr : acquireFirst a u rest with
      | none => rw [hr] at h; cases h
      | some rest' =>
        rw [hr] at h
        obtain ⟨l₁, r₀, l₂, e1, e2, e3, e4⟩ := ih hr
        have hl' : l' = r :: rest' := (Option.some.inj h).symm
        subst hl'
        refine ⟨r :: l₁, r₀, l₂, by rw [List.cons_append, e1], by rw [List.cons_append, e2], e3, ?_⟩
        intro x hx
        rcases List.mem_cons.mp hx with e | e
        · subst e
          simpa using hc
        · exact e4 x e

theorem acquireFirst_length {a u : ℤ} {l l' : List Resource}
    (h : acquireFirst a u l = some l') : l'.length = l.length := by
  obtain ⟨l₁, r, l₂, e1, e2, -, -⟩ := acquireFirst_eq_some h
  subst e1
  subst e2
  simp

theorem acquireFirst_countP {a u : ℤ} {l l' : List Resource}
    (h : acquireFirst a u l = some l') (hu : u ≠ 0)
    (hpool : ∀ x ∈ l, UnitInv x) :
    (l'.countP fun r => decide (r.endTime ≠ 0)) =
      (l.countP fun r => decide (r.endTime ≠ 0)) + 1 := by
  obtain ⟨l₁, r, l₂, e1, e2, e3, -⟩ := acquireFirst_eq_some h
  have hrmem : r ∈ l := by
    rw [e1]
    exact List.mem_append_right _ (List.mem_cons_self _ _)
  have hrend : r.endTime = 0 := by
    obtain ⟨h0, hiff, -⟩ := hpool r hrmem
    have hav : r.available = true := by
      unfold canUse at e3
      rw [Bool.and_eq_true] at e3
      exact e3.1
    exact hiff.mp hav
  subst e1
  subst e2
  rw [List.countP_append, List.countP_append, List.countP_cons, List.countP_cons]
  simp only [hrend]
  simp [hu]
  omega

theorem acquireFirst_unitInv {a u : ℤ} {l l' : List Resource}
    (h : acquireFirst a u l = some l') (hpool : ∀ x ∈ l, UnitInv x)
    (ha : a = 0) (hu40 : 40 ≤ u) :
    ∀ x ∈ l', UnitInv x := by
  obtain ⟨l₁, r, l₂, e1, e2, e3, -⟩ := acquireFirst_eq_some h
  have hrmem : r ∈ l := by
    rw [e1]
    exact List.mem_append_right _ (List.mem_cons_self _ _)
  obtain ⟨hr0, hriff, hr40, hrpw, hrwf, hrlink⟩ := hpool r hrmem
  have hrend : r.endTime = 0 := by
    have hav : r.available = true := by
      unfold canUse at e3
      rw [Bool.and_eq_true] at e3
      exact e3.1
    exact hriff.mp hav
  have hune : u ≠ 0 := by omega
  intro x hx
  rw [e2] at hx
  rcases List.mem_append.mp hx with hx | hx
  · exact hpool x (by rw [e1]; exact List.mem_append_left _ hx)
  · rcases List.mem_cons.mp hx with e | hx
    · subst e
      refine ⟨show (0 : ℤ) ≤ u by omega, by simp [hune], Or.inr hu40, ?_, ?_, ?_⟩
      · refine List.pairwise_cons.mpr ⟨?_, hrpw⟩
        intro iv hiv
        have := hrlink iv hiv
        show iv.2 ≤ a
        omega
      · intro iv hiv
        rcases List.mem_cons.mp hiv with e | hiv
        · subst e
          show a ≤ u
          omega
        · exact hrwf iv hiv
      · intro iv hiv
        rcases List.mem_cons.mp hiv with e | hiv
        · subst e
          exact le_refl u
        · have := hrlink iv hiv
          show iv.2 ≤ u
          omega
    · exact hpool x (by rw [e1]; exact List.mem_append_right _ (List.mem_cons_of_mem _ hx))

theorem allocPhase_nil {s : SimState} (hw : s.waitingRoom = []) :
    allocPhase s = s := by
  unfold allocPhase
  rw [hw]

theorem allocPhase_cons {s : SimState} {top : Patient} {rest : List Patient}
    (hw : s.waitingRoom = top :: rest) :
    allocPhase s =
      match acquireFirst (max s.currentTime top.arrivalTime)
          (max s.currentTime top.arrivalTime + top.treatmentTime) s.doctors with
      | none => s
      | some doctors' =>
        match acquireFirst (max s.currentTime top.arrivalTime)
            (max s.currentTime top.arrivalTime + top.treatmentTime) s.beds with
        | none => s
        | some beds' => allocCommit s top rest doctors' beds' := by
  unfold allocPhase
  rw [hw]

theorem allocPhase_inv {s : SimState} (h : Inv s) : Inv (allocPhase s) := by
  cases hw : s.waitingRoom with
  | nil =>
    rw [allocPhase_nil hw]
    exact h
  | cons top rest =>
    have htop : PatientInv top :=
      h.queueInv top (by rw [hw]; exact List.mem_cons_self _ _)
    have hassign : max s.currentTime top.arrivalTime = 0 := by
      rw [h.time0, htop.1]
      exact max_self 0
    rw [allocPhase_cons hw, hassign]
    cases hd : acquireFirst 0 (0 + top.treatmentTime) s.doctors with
    | none => exact h
    | some doctors' =>
      cases hb : acquireFirst 0 (0 + top.treatmentTime) s.beds with
      | none => exact h
      | some beds' =>
        show Inv (allocCommit s top rest doctors' beds')
        have htt : (40 : ℤ) ≤ 0 + top.treatmentTime := by
          have := htop.2
          omega
        have hune : (0 : ℤ) + top.treatmentTime ≠ 0 := by omega
        refine ⟨h.time0, h.arrNonneg, ?_, ?_, ?_, ?_, ?_, ?_⟩
        · intro p hp
          exact h.queueInv p (by rw [hw]; exact List.mem_cons_of_mem _ hp)
        · exact acquireFirst_unitInv hd h.docInv rfl htt
        · exact acquireFirst_unitInv hb h.bedInv rfl htt
        · show doctors'.length = NUM_DOCTORS
          rw [acquireFirst_length hd]
          exact h.docLen
        · show beds'.length = NUM_BEDS
          rw [acquireFirst_length hb]
          exact h.bedLen
        · show (beds'.countP fun u => decide (u.endTime ≠ 0)) ≤
            (doctors'.countP fun u => decide (u.endTime ≠ 0))
          rw [acquireFirst_countP hb hune h.bedInv, acquireFirst_countP hd hune h.docInv]
          have := h.busyCount
          omega

theorem initState_inv (rng : ℕ → ℕ) : Inv (initState rng) := by
  refine ⟨rfl, ?_, ?_, ?_, ?_, ?_, ?_, ?_⟩
  · show (0 : ℤ) ≤ generateArrivalTime 0 BASE_LAMBDA (rng 0)
    unfold generateArrivalTime
    have := Int.natCast_nonneg (rng 0)
    omega
  · intro p hp
    exact absurd hp (List.not_mem_nil p)
  · intro u hu
    have e := List.eq_of_mem_replicate
      (show u ∈ List.replicate NUM_DOCTORS { available := true, endTime := 0 } from hu)
    subst e
    exact ⟨le_refl 0, by simp, Or.inl rfl, List.Pairwise.nil, by simp, by simp⟩
  · intro u hu
    have e := List.eq_of_mem_replicate
      (show u ∈ List.replicate NUM_BEDS { available := true, endTime := 0 } from hu)
    subst e
    exact ⟨le_refl 0, by simp, Or.inl rfl, List.Pairwise.nil, by simp, by simp⟩
  · exact List.length_replicate _ _
  · exact List.length_replicate _ _
  · show ((List.replicate NUM_BEDS { available := true, endTime := 0 } :
        List Resource).countP fun u => decide (u.endTime ≠ 0)) ≤
      ((List.replicate NUM_DOCTORS { available := true, endTime := 0 } :
        List Resource).countP fun u => decide (u.endTime ≠ 0))
    decide

theorem decisionState_inv (fuel : ℕ) {s : SimState} (h : Inv s) :
    Inv (decisionState fuel s) :=
  clockPhase_inv (admitLoop_inv fuel (lambdaOf s) h)

theorem step_inv (fuel : ℕ) {s : SimState} (h : Inv s) : Inv (step fuel s) :=
  allocPhase_inv (decisionState_inv fuel h)

theorem runN_inv (rng fuel : ℕ → ℕ) (n : ℕ) : Inv (runN rng fuel n) := by
  induction n with
  | zero => exact initState_inv rng
  | succ n ih =>
    show Inv (runN rng fuel (n + 1))
    unfold runN
    split_ifs with hg
    · exact step_inv (fuel n) ih
    · exact ih

/-- C1 (code bug): in the configured run (5 clinicians, 10 beds, horizon
1440), the loop guard `currentTime < SIMULATION_MINUTES || !waitingRoom.empty()`
still holds after every number of iterations, for every entropy stream and
every arrival-batch schedule — the loop never terminates.  The clock step
takes the minimum over every unit's `endTime` including never-acquired units
(whose `endTime` stays 0), so `currentTime = min(currentTime + 1, 0) = 0`
forever; since beds outnumber doctors and a doctor busy at the frozen clock
is never released, some bed keeps `endTime = 0` for the whole run. -/
theorem c1_loop_never_exits (rng fuel : ℕ → ℕ) (n : ℕ) :
    loopGuard (runN rng fuel n) = true := by
  unfold loopGuard
  rw [(runN_inv rng fuel n).time0]
  norm_num [SIMULATION_MINUTES]

/-- C2: at every reachable state of the configured run, `currentTime` is at
most every unit's `endTime` in both pools (hence at most their minimum);
while any unit has never been acquired (`endTime` still 0) the clock remains
0; and `currentTime` never decreases from one iteration to the next. -/
theorem c2_clock_bounded_by_endTimes (rng fuel : ℕ → ℕ) (n : ℕ) :
    (∀ u ∈ (runN rng fuel n).doctors ++ (runN rng fuel n).beds,
        (runN rng fuel n).currentTime ≤ u.endTime) ∧
    ((∃ u ∈ (runN rng fuel n).doctors ++ (runN rng fuel n).beds, u.endTime = 0) →
        (runN rng fuel n).currentTime = 0) ∧
    (runN rng fuel n).currentTime ≤ (runN rng fuel (n + 1)).currentTime := by
  have h := runN_inv rng fuel n
  have h' := runN_inv rng fuel (n + 1)
  refine ⟨?_, fun _ => h.time0, ?_⟩
  · intro u hu
    rw [h.time0]
    rcases List.mem_append.mp hu with hu | hu
    · exact (h.docInv u hu).1
    · exact (h.bedInv u hu).1
  · rw [h.time0, h'.time0]

/-- Witness for C2 at a concrete run prefix: after one iteration with the
all-zeros entropy stream, the first doctor unit is still unacquired, so the
clock is still 0. -/
theorem c2_clock_bounded_by_endTimes_witness :
    (runN (fun _ => 0) (fun _ => 0) 1).currentTime = 0 :=
  (c2_clock_bounded_by_endTimes (fun _ => 0) (fun _ => 0) 1).2.1
    ⟨{ available := true, endTime := 0 }, by decide, rfl⟩

/-- C4: at the moment the allocation decision of a tick is made (arrivals
admitted, availability refreshed, clock advanced), every unit of both pools
satisfies `available == (endTime <= currentTime)` for the tick's current
time. -/
theorem c4_availability_consistent_at_decision (rng fuel : ℕ → ℕ) (n : ℕ)
    (u : Resource)
    (hu : u ∈ (decisionState (fuel n) (runN rng fuel n)).doctors ++
        (decisionState (fuel n) (runN rng fuel n)).beds) :
    u.available =
      decide (u.endTime ≤ (decisionState (fuel n) (runN rng fuel n)).currentTime) := by
  have h1 : Inv (decisionState (fuel n) (runN rng fuel n)) :=
    decisionState_inv (fuel n) (runN_inv rng fuel n)
  rw [h1.time0]
  have hui : UnitInv u := by
    rcases List.mem_append.mp hu with hu | hu
    · exact h1.docInv u hu
    · exact h1.bedInv u hu
  obtain ⟨hnn, hiff, h40, -⟩ := hui
  rcases h40 with h0 | h40
  · rw [hiff.mpr h0, h0]
    decide
  · have hav : u.available = false := by
      cases hav : u.available
      · rfl
      · exfalso
        have := hiff.mp hav
        omega
    rw [hav]
    have hgt : ¬(u.endTime ≤ 0) := by omega
    simp [hgt]

/-- Witness for C4 at a concrete decision point: the first doctor unit of
the initial state is available and its `endTime` 0 is at or before the
decision-point clock. -/
theorem c4_availability_consistent_at_decision_witness :
    (Resource.mk true 0 []).available =
      decide ((Resource.mk true 0 []).endTime ≤
        (decisionState ((fun _ : ℕ => 0) 0) (runN (fun _ => 0) (fun _ => 0) 0)).currentTime) :=
  c4_availability_consistent_at_decision (fun _ => 0) (fun _ => 0) 0
    (Resource.mk true 0 []) (by decide)

/-- C6: over the whole configured run, the busy intervals assigned to any
single resource unit (ghost-logged as `(assignTime, assignTime +
treatmentTime)` pairs, newest first) are pairwise non-overlapping — every
earlier interval ends at or before every later one starts — and each is
well-formed; in particular no unit is ever acquired while still busy. -/
theorem c6_no_double_booking (rng fuel : ℕ → ℕ) (n : ℕ) (u : Resource)
    (hu : u ∈ (runN rng fuel n).doctors ++ (runN rng fuel n).beds) :
    u.log.Pairwise (fun a b => b.2 ≤ a.1) ∧ ∀ iv ∈ u.log, iv.1 ≤ iv.2 := by
  have h := runN_inv rng fuel n
  have hui : UnitInv u := by
    rcases List.mem_append.mp hu with hu | hu
    · exact h.docInv u hu
    · exact h.bedInv u hu
  exact ⟨hui.2.2.2.1, hui.2.2.2.2.1⟩

/-- Witness for C6 at a concrete run prefix: the first doctor unit of the
initial state has an empty (vacuously non-overlapping) interval log. -/
theorem c6_no_double_booking_witness :
    (Resource.mk true 0 []).log.Pairwise (fun a b => b.2 ≤ a.1) ∧
      ∀ iv ∈ (Resource.mk true 0 []).log, iv.1 ≤ iv.2 :=
  c6_no_double_booking (fun _ => 0) (fun _ => 0) 0 (Resource.mk true 0 []) (by decide)

end Hospital
